import Mathlib

/-!
Verification of the PETRARCH sentence-level event coder (petrarch.py,
PETRreader.py) against its specification.  Python strings are embedded as
lists of characters; Python lists as Lean lists; functions that can raise
are embedded with Option or Except; mutable globals are threaded as
explicit state.  Each embedded definition mirrors one function of the
source, named after it.
-/

namespace Petrarch

/-- Python strings, embedded as character lists. -/
abbrev Str := List Char

/-- Python substring containment, the test written as sub in s. -/
def strIn (sub s : Str) : Bool :=
  if sub.isPrefixOf s then true
  else
    match s with
    | [] => false
    | _ :: t => strIn sub t

/-- Python s.index(sub) and s.find(sub): index of the first occurrence of a
substring, none when absent. -/
def pyFindSub (sub s : Str) : Option Nat :=
  if sub.isPrefixOf s then some 0
  else
    match s with
    | [] => none
    | _ :: t => (pyFindSub sub t).map (· + 1)

/-- Python s.partition(c) for a one-character separator: text before the
first occurrence and text after it (whole string and empty when absent). -/
def pyPartition (c : Char) (s : Str) : Str × Str :=
  match pyFindSub [c] s with
  | some i => (s.take i, s.drop (i + 1))
  | none => (s, [])

/-! ## Event Assembler: petrarch.py make_event_strings -/

/-- The compound-entity tag searched for by make_events. -/
def necTag : Str := "(NEC".toList

/-- The null code. -/
def nullCode : Str := "---".toList

/-- An event triple: source code, target code, event code.  This is the
shape appended by make_events when WriteActorRoot and WriteActorText are
both off. -/
abbrev Event := Str × Str × Str

/-- make_event_strings.extract_code_fields with WriteActorRoot and
WriteActorText off: only the main code survives, cut before the first
occurrence of the CodePrimer string cp (the whole code when cp is absent). -/
def extract_main (cp fullcode : Str) : Str :=
  if strIn cp fullcode then
    match pyFindSub cp fullcode with
    | some i => fullcode.take i
    | none => fullcode
  else fullcode

/-- Lines 2265-2266 and 2279-2281 of make_events: a null-headed code gets the
sentence location prefixed when a location is known. -/
def locFix (sloc c : Str) : Str :=
  if c.take 3 = nullCode ∧ sloc ≠ [] then sloc ++ c.drop 3 else c

/-- Inner loop of make_events over the target code list.  cursrc is the
mutable srclist variable of the source: under passive voice the swap
performed immediately before each append overwrites it with the target
fields, and the overwritten value persists into the following iterations.
none models the clearing early return taken when a compound tag is found
in a target code. -/
def make_events_inner (passive : Bool) (sloc cp evt : Str) (cursrc : Str)
    (tars : List Str) (evs : List Event) : Option (List Event) :=
  match tars with
  | [] => some evs
  | thistar :: rest =>
    if strIn necTag thistar then none
    else
      let tar0 := extract_main cp thistar
      if cursrc ≠ tar0 then
        let tar1 := locFix sloc tar0
        if passive then
          make_events_inner passive sloc cp evt tar1 rest (evs ++ [(tar1, cursrc, evt)])
        else
          make_events_inner passive sloc cp evt cursrc rest (evs ++ [(cursrc, tar1, evt)])
      else
        make_events_inner passive sloc cp evt cursrc rest evs

/-- make_event_strings.make_events: cross product of the source and target
code lists, skipping pairs whose extracted codes are equal, swapping the
two sides under passive voice.  none models the early return that clears
CodedEvents when a compound tag survives in a code. -/
def make_events (passive : Bool) (sloc cp evt : Str) (srcs tars : List Str)
    (evs : List Event) : Option (List Event) :=
  match srcs with
  | [] => some evs
  | thissrc :: rest =>
    if strIn necTag thissrc then none
    else
      let src0 := locFix sloc (extract_main cp thissrc)
      match make_events_inner passive sloc cp evt src0 tars evs with
      | none => none
      | some evs1 => make_events passive sloc cp evt rest tars evs1

/-- A call of make_events as seen by its caller: the clearing early return
leaves CodedEvents empty. -/
def make_events_run (passive : Bool) (sloc cp evt : Str) (srcs tars : List Str)
    (evs : List Event) : List Event :=
  (make_events passive sloc cp evt srcs tars evs).getD []

/-- make_event_strings.expand_compound_codes, one position: replace the code
at position ka by its slash-separated parts, in order. -/
def expand_at (ka : Nat) (l : List Str) : List Str :=
  match l.get? ka with
  | none => l
  | some c =>
    if strIn ['/'] c then
      l.take ka ++ c.splitOn '/' ++ l.drop (ka + 1)
    else l

/-- expand_compound_codes iterates ka over range(len(codelist)) with the
length captured before any insertion; rem counts the iterations left. -/
def expand_compound_go (ka : Nat) (l : List Str) : Nat → List Str
  | 0 => l
  | rem + 1 => expand_compound_go (ka + 1) (expand_at ka l) rem

/-- make_event_strings.expand_compound_codes: expand slash-joined codes in
place. -/
def expand_compound_codes (l : List Str) : List Str :=
  expand_compound_go 0 l l.length

/-- Lines 2335-2342 of make_event_strings: with RequireDyad set, drop
events with a null source or target code. -/
def dyadFilter (requireDyad : Bool) (evs : List Event) : List Event :=
  if requireDyad then
    evs.filter (fun e => ¬(e.1 = nullCode ∨ e.2.1 = nullCode))
  else evs

/-- Fuel-indexed duplicate removal; the fuel is always at least the list
length, so the fuel-exhausted case is never reached. -/
def pyDedupF : Nat → List Event → List Event
  | _, [] => []
  | 0, l => l
  | f + 1, e :: rest => e :: pyDedupF f (rest.filter (· ≠ e))

/-- Lines 2347-2356 of make_event_strings: remove duplicate events, keeping
the first occurrence of each. -/
def pyDedup (l : List Event) : List Event :=
  pyDedupF l.length l

/-- make_event_strings from the point where the source and target code
lists have been fetched by get_loccodes (lines 2308-2358): compound
expansion, the symmetric-code split, the make_events calls (SentenceLoc
has just been reset to the empty string at line 2315), the RequireDyad
filter and deduplication.  evs0 is the CodedEvents list on entry. -/
def make_event_strings_core (cp : Str) (requireDyad passive : Bool)
    (eventcode : Str) (srccodes0 tarcodes0 : List Str)
    (evs0 : List Event) : List Event :=
  let srccodes := expand_compound_codes srccodes0
  let tarcodes := expand_compound_codes tarcodes0
  if srccodes.length = 0 ∨ tarcodes.length = 0 then evs0
  else
    let evs2 :=
      if strIn [':'] eventcode then
        let st :=
          if srccodes.head? = some nullCode ∨ tarcodes.head? = some nullCode then
            if tarcodes.head? = some nullCode then (srccodes, srccodes)
            else (tarcodes, tarcodes)
          else (srccodes, tarcodes)
        let ecodes := pyPartition ':' eventcode
        let evs1 := make_events_run passive [] cp ecodes.1 st.1 st.2 evs0
        make_events_run passive [] cp ecodes.2 st.2 st.1 evs1
      else
        make_events_run passive [] cp eventcode srccodes tarcodes evs0
    let evs3 := dyadFilter requireDyad evs2
    if evs3.length = 0 then evs3 else pyDedup evs3

/-! ## Lemmas on the Event Assembler -/

theorem locFix_nil (c : Str) : locFix [] c = c := by
  simp [locFix]

theorem mem_make_events_inner (passive : Bool) (cp evt : Str)
    (tars : List Str) (cursrc : Str) (evs evs1 : List Event)
    (h : make_events_inner passive [] cp evt cursrc tars evs = some evs1) :
    ∀ e ∈ evs1, e ∈ evs ∨ e.1 ≠ e.2.1 := by
  induction tars generalizing cursrc evs with
  | nil =>
    simp only [make_events_inner, Option.some.injEq] at h
    subst h
    exact fun e he => Or.inl he
  | cons thistar rest ih =>
    simp only [make_events_inner, locFix_nil] at h
    split at h
    · exact Option.noConfusion h
    · split at h
      next hg =>
        split at h
        · intro e he
          rcases ih _ _ h e he with h1 | h1
          · rcases List.mem_append.1 h1 with h2 | h2
            · exact Or.inl h2
            · right
              simp only [List.mem_singleton] at h2
              subst h2
              simpa using (Ne.symm hg)
          · exact Or.inr h1
        · intro e he
          rcases ih _ _ h e he with h1 | h1
          · rcases List.mem_append.1 h1 with h2 | h2
            · exact Or.inl h2
            · right
              simp only [List.mem_singleton] at h2
              subst h2
              simpa using hg
          · exact Or.inr h1
      next hg => exact ih _ _ h

theorem mem_make_events (passive : Bool) (cp evt : Str)
    (srcs tars : List Str) (evs evs1 : List Event)
    (h : make_events passive [] cp evt srcs tars evs = some evs1) :
    ∀ e ∈ evs1, e ∈ evs ∨ e.1 ≠ e.2.1 := by
  induction srcs generalizing evs with
  | nil =>
    simp only [make_events, Option.some.injEq] at h
    subst h
    exact fun e he => Or.inl he
  | cons thissrc rest ih =>
    simp only [make_events] at h
    split at h
    · exact Option.noConfusion h
    · split at h
      next hin => exact Option.noConfusion h
      next evsm hin =>
        intro e he
        rcases ih _ h e he with h1 | h1
        · rcases mem_make_events_inner _ _ _ _ _ _ _ hin e h1 with h2 | h2
          · exact Or.inl h2
          · exact Or.inr h2
        · exact Or.inr h1

theorem mem_make_events_run (passive : Bool) (cp evt : Str)
    (srcs tars : List Str) (evs : List Event) :
    ∀ e ∈ make_events_run passive [] cp evt srcs tars evs,
      e ∈ evs ∨ e.1 ≠ e.2.1 := by
  unfold make_events_run
  cases h : make_events passive [] cp evt srcs tars evs with
  | none => simp
  | some evs1 =>
    simpa using mem_make_events passive cp evt srcs tars evs evs1 h

theorem mem_pyDedupF (f : Nat) (l : List Event) :
    ∀ e ∈ pyDedupF f l, e ∈ l := by
  induction f generalizing l with
  | zero => cases l <;> simp [pyDedupF]
  | succ f ih =>
    cases l with
    | nil => simp [pyDedupF]
    | cons x rest =>
      intro e he
      simp only [pyDedupF, List.mem_cons] at he
      rcases he with he | he
      · simp [he]
      · exact List.mem_cons_of_mem _ (List.mem_of_mem_filter (ih _ e he))

theorem mem_pyDedup (l : List Event) : ∀ e ∈ pyDedup l, e ∈ l :=
  mem_pyDedupF l.length l

theorem mem_dyadFilter (rd : Bool) (l : List Event) :
    ∀ e ∈ dyadFilter rd l, e ∈ l := by
  cases rd <;> simp only [dyadFilter, if_true, if_false, Bool.false_eq_true]
  · exact fun e he => he
  · exact fun e he => List.mem_of_mem_filter he

theorem extract_main_id (cp c : Str) (h : strIn cp c = false) :
    extract_main cp c = c := by
  simp [extract_main, h]

theorem expand_single (c : Str) (h : strIn ['/'] c = false) :
    expand_compound_codes [c] = [c] := by
  simp [expand_compound_codes, expand_compound_go, expand_at, h]

/-- C2: a symmetric event code applied to distinct resolved single-code
source and target lists, without passive voice, emits exactly the forward
triple and the reversed triple, with the event code split at the colon. -/
theorem claim_symmetric_split (cp A B evcode : Str) (rd : Bool)
    (hsym : strIn [':'] evcode = true)
    (hAB : A ≠ B) (hA : A ≠ nullCode) (hB : B ≠ nullCode)
    (hAn : strIn necTag A = false) (hBn : strIn necTag B = false)
    (hAs : strIn ['/'] A = false) (hBs : strIn ['/'] B = false)
    (hAc : strIn cp A = false) (hBc : strIn cp B = false) :
    make_event_strings_core cp rd false evcode [A] [B] [] =
      [(A, B, (pyPartition ':' evcode).1), (B, A, (pyPartition ':' evcode).2)] := by
  have hBA : B ≠ A := Ne.symm hAB
  unfold make_event_strings_core
  rw [expand_single A hAs, expand_single B hBs]
  cases rd with
  | true =>
    simp [make_events_run, make_events, make_events_inner, dyadFilter,
      pyDedup, pyDedupF, extract_main_id cp A hAc, extract_main_id cp B hBc,
      locFix_nil, hsym, hAB, hBA, hA, hB, hAn, hBn]
  | false =>
    simp [make_events_run, make_events, make_events_inner, dyadFilter,
      pyDedup, pyDedupF, extract_main_id cp A hAc, extract_main_id cp B hBc,
      locFix_nil, hsym, hAB, hBA, hA, hB, hAn, hBn]

/-- Witness for claim_symmetric_split at a concrete input. -/
theorem claim_symmetric_split_witness :
    make_event_strings_core [':'] false false ("057:058".toList)
        ["FRA".toList] ["GMY".toList] [] =
      [("FRA".toList, "GMY".toList, (pyPartition ':' ("057:058".toList)).1),
       ("GMY".toList, "FRA".toList, (pyPartition ':' ("057:058".toList)).2)] :=
  claim_symmetric_split [':'] ("FRA".toList) ("GMY".toList) ("057:058".toList)
    false (by decide) (by decide) (by decide) (by decide) (by decide)
    (by decide) (by decide) (by decide) (by decide) (by decide)

/-- C1 (code evaluation): a passive-voice match with one source code and two
target codes.  The first appended pair is swapped as specified, but the
swap overwrites the source fields variable, so the second pair uses the
first target code, not the raw source code, as its event target. -/
theorem claim_passive_swap_code_eval :
    make_event_strings_core [':'] false true ("022".toList)
        ["AAA".toList] ["BBB".toList, "CCC".toList] [] =
      [("BBB".toList, "AAA".toList, "022".toList),
       ("CCC".toList, "BBB".toList, "022".toList)] ∧
    make_event_strings_core [':'] false true ("022".toList)
        ["AAA".toList] ["BBB".toList, "CCC".toList] [] ≠
      [("BBB".toList, "AAA".toList, "022".toList),
       ("CCC".toList, "AAA".toList, "022".toList)] := by
  constructor
  · decide
  · decide

/-- C7: event assembly never appends a triple whose source code equals its
target code; every event present after make_event_strings either was
already in CodedEvents on entry or has distinct source and target codes,
each candidate source/target pair with equal extracted codes having been
skipped. -/
theorem claim_no_self_reference (cp : Str) (rd pv : Bool) (evcode : Str)
    (srcs tars : List Str) (evs0 : List Event) :
    ∀ e ∈ make_event_strings_core cp rd pv evcode srcs tars evs0,
      e ∈ evs0 ∨ e.1 ≠ e.2.1 := by
  intro e he
  unfold make_event_strings_core at he
  set srccodes := expand_compound_codes srcs with hsrc
  set tarcodes := expand_compound_codes tars with htar
  by_cases hlen : srccodes.length = 0 ∨ tarcodes.length = 0
  · simp only [hlen, if_true] at he
    exact Or.inl he
  · simp only [hlen, if_false] at he
    by_cases hempty :
        (dyadFilter rd
          (if strIn [':'] evcode = true then
            let st :=
              if srccodes.head? = some nullCode ∨ tarcodes.head? = some nullCode then
                if tarcodes.head? = some nullCode then (srccodes, srccodes)
                else (tarcodes, tarcodes)
              else (srccodes, tarcodes)
            let ecodes := pyPartition ':' evcode
            let evs1 := make_events_run pv [] cp ecodes.1 st.1 st.2 evs0
            make_events_run pv [] cp ecodes.2 st.2 st.1 evs1
          else make_events_run pv [] cp evcode srccodes tarcodes evs0)).length = 0
    all_goals
      simp only [hempty, if_true, if_false] at he
    · rcases List.length_eq_zero.mp hempty with h0
      rw [h0] at he
      simp at he
    · have he2 := mem_pyDedup _ e he
      have he3 := mem_dyadFilter _ _ e he2
      by_cases hsym : strIn [':'] evcode = true
      · simp only [hsym, if_true] at he3
        rcases mem_make_events_run pv cp _ _ _ _ e he3 with h1 | h1
        · rcases mem_make_events_run pv cp _ _ _ _ e h1 with h2 | h2
          · exact Or.inl h2
          · exact Or.inr h2
        · exact Or.inr h1
      · simp only [hsym, Bool.false_eq_true, if_false] at he3
        rcases mem_make_events_run pv cp _ _ _ _ e he3 with h1 | h1
        · exact Or.inl h1
        · exact Or.inr h1

/-- Witness for claim_no_self_reference at a concrete input. -/
theorem claim_no_self_reference_witness :
    ("FRA".toList, "GMY".toList, "057".toList) ∈ ([] : List Event) ∨
      ("FRA".toList : Str) ≠ "GMY".toList :=
  claim_no_self_reference [':'] false false ("057:058".toList)
    ["FRA".toList] ["GMY".toList] []
    ("FRA".toList, "GMY".toList, "057".toList) (by decide)

/-! ## get_loccodes: petrarch.py lines 1037-1150

The globals touched by get_loccodes are threaded as an explicit state.
WriteActorRoot and WriteActorText are off; new_actor_length is the nal
parameter.  Failures that the source raises (raise_ParseList_error,
IndexError) are Except errors. -/

/-- The per-sentence coding globals read or written around get_loccodes. -/
structure CoderState where
  upperSeq : List Str
  lowerSeq : List Str
  parseList : List Str
  codedEvents : List Event
  storyEventList : List (List Str)
  sentenceID : Str
deriving DecidableEq

/-- Python list indexing, with negative indices counting from the end and
out-of-range indices raising. -/
def pyIdx (l : List Str) (i : Int) : Except Unit Str :=
  if i ≥ 0 then
    match l.get? i.toNat with
    | some x => Except.ok x
    | none => Except.error ()
  else if (-i).toNat ≤ l.length then
    match l.get? (l.length - (-i).toNat) with
    | some x => Except.ok x
    | none => Except.error ()
  else Except.error ()

/-- Python s[0], raising on an empty string. -/
def firstChar (s : Str) : Except Unit Char :=
  match s with
  | [] => Except.error ()
  | c :: _ => Except.ok c

/-- The entity open tag searched for in sequence items. -/
def neTag : Str := "(NE".toList

/-- The compound close tag that ends the compound scan loops. -/
def necCloseTag : Str := "~NEC".toList

/-- add_code: acneitem[acneitem.find(chr 62) + 1:], the code after the first
greater-than sign, the whole item when none is present. -/
def afterGtCode (item : Str) : Str :=
  match pyFindSub ['>'] item with
  | some i => item.drop (i + 1)
  | none => item

/-- Backward walk of get_ne_text over the upper sequence: words are
gathered until the sentence start or a close marker. -/
def gnt_upper_go (seq : List Str) : Nat → Int → Str → Except Unit Str
  | 0, _, acc => Except.ok acc
  | fuel + 1, ka, acc =>
    if ka ≥ 0 then do
      let item ← pyIdx seq ka
      let c ← firstChar item
      if c ≠ '~' then gnt_upper_go seq fuel (ka - 1) (acc ++ [' '] ++ item)
      else Except.ok acc
    else Except.ok acc

/-- Forward walk of get_ne_text over the lower sequence; the loop condition
indexes without a bound check, so running off the end raises. -/
def gnt_lower_go (seq : List Str) : Nat → Int → Str → Except Unit Str
  | 0, _, _ => Except.error ()
  | fuel + 1, ka, acc => do
    let item ← pyIdx seq ka
    let c ← firstChar item
    if c ≠ '~' then gnt_lower_go seq fuel (ka + 1) (acc ++ [' '] ++ item)
    else Except.ok acc

/-- get_loccodes.get_ne_text: the text of the phrase starting at neloc. -/
def get_ne_text (seq : List Str) (isupperseq : Bool) (neloc : Int) :
    Except Unit Str :=
  if isupperseq then do
    let acphr ← pyIdx seq (neloc - 1)
    gnt_upper_go seq (seq.length + 2) (neloc - 2) acphr
  else do
    let acphr ← pyIdx seq (neloc + 1)
    gnt_lower_go seq (2 * seq.length + 2) (neloc + 2) acphr

/-- get_loccodes.add_code with WriteActorRoot and WriteActorText off:
append the resolved code at neloc to codelist, or with new_actor_length
positive the quoted phrase of a null-coded entity when short enough;
append nothing for a null code otherwise. -/
def add_code (nal : Nat) (seq : List Str) (isupperseq : Bool) (neloc : Int)
    (codelist : List Str) : Except Unit (List Str) := do
  let acneitem ← pyIdx seq neloc
  let accode := afterGtCode acneitem
  if accode ≠ nullCode then
    Except.ok (codelist ++ [accode])
  else if 0 < nal then do
    let phr ← get_ne_text seq isupperseq neloc
    let acphr := '"' :: phr ++ ['"']
    if (acphr.filter (· = ' ')).length < nal then
      Except.ok (codelist ++ [acphr])
    else
      Except.ok (codelist ++ [accode])
  else
    Except.ok codelist

/-- Compound-code extraction loop over the upper sequence (lines
1116-1123): walk backward to the compound close tag, adding each entity
code; stepping below the start raises. -/
def locc_upper_go (nal : Nat) (seq : List Str) :
    Nat → Int → List Str → Except Unit (List Str)
  | 0, _, _ => Except.error ()
  | fuel + 1, ka, codelist => do
    let item ← pyIdx seq ka
    if strIn necCloseTag item then Except.ok codelist
    else do
      let codelist1 ←
        if strIn neTag item then add_code nal seq true ka codelist
        else Except.ok codelist
      if ka - 1 < 0 then Except.error ()
      else locc_upper_go nal seq fuel (ka - 1) codelist1

/-- Compound-code extraction loop over the lower sequence (lines
1137-1145): walk forward to the compound close tag; stepping past the end
raises. -/
def locc_lower_go (nal : Nat) (seq : List Str) :
    Nat → Int → List Str → Except Unit (List Str)
  | 0, _, _ => Except.error ()
  | fuel + 1, ka, codelist => do
    let item ← pyIdx seq ka
    if strIn necCloseTag item then Except.ok codelist
    else do
      let codelist1 ←
        if strIn neTag item then add_code nal seq false ka codelist
        else Except.ok codelist
      if (ka + 1 : Int) ≥ (seq.length : Int) then Except.error ()
      else locc_lower_go nal seq fuel (ka + 1) codelist1

/-- One coded event as the plain list appended to StoryEventList. -/
def evToList (e : Event) : List Str :=
  [e.1, e.2.1, e.2.2]

/-- petrarch.py get_loccodes: the list of codes at a source or target
locator, a compound yielding one code per member.  The function clears
StoryEventList on entry, and for a lower-sequence locator appends the
sentence identifier and every current coded event to it before
extracting the codes. -/
def get_loccodes (nal : Nat) (st : CoderState) (thisloc : Nat × Bool) :
    Except Unit (List Str × CoderState) :=
  let st1 : CoderState := { st with storyEventList := [] }
  if thisloc.2 then do
    let neitem ←
      match st.upperSeq.get? thisloc.1 with
      | some x => Except.ok x
      | none => Except.error ()
    let codelist ←
      if strIn necTag neitem then
        locc_upper_go nal st.upperSeq (st.upperSeq.length + 2)
          ((thisloc.1 : Int) - 1) []
      else
        add_code nal st.upperSeq true (thisloc.1 : Int) []
    let codelist1 := if codelist.length = 0 then [nullCode] else codelist
    Except.ok (codelist1, st1)
  else do
    let neitem ←
      match st.lowerSeq.get? thisloc.1 with
      | some x => Except.ok x
      | none => Except.error ()
    let st2 : CoderState :=
      { st1 with storyEventList := [st.sentenceID] :: st.codedEvents.map evToList }
    let codelist ←
      if strIn necTag neitem then
        locc_lower_go nal st.lowerSeq (st.lowerSeq.length + 2)
          ((thisloc.1 : Int) + 1) []
      else
        add_code nal st.lowerSeq false (thisloc.1 : Int) []
    let codelist1 := if codelist.length = 0 then [nullCode] else codelist
    Except.ok (codelist1, st2)

/-- C9 counterexample: get_loccodes clears the per-story accumulated event
list at entry, so a call with an upper-sequence locator changes it, against
the claim that it is unchanged by the call. -/
theorem claim_get_loccodes_frame_counterexample :
    get_loccodes 0
        ⟨["(NE<2>ABC".toList], [], [], [], [["XYZ".toList]], "SID".toList⟩
        (0, true) =
      Except.ok (["ABC".toList],
        ⟨["(NE<2>ABC".toList], [], [], [], [], "SID".toList⟩) ∧
    (⟨["(NE<2>ABC".toList], [], [], [], [], "SID".toList⟩ :
        CoderState).storyEventList ≠
      (⟨["(NE<2>ABC".toList], [], [], [], [["XYZ".toList]], "SID".toList⟩ :
        CoderState).storyEventList := by
  constructor
  · rfl
  · decide

theorem loccodes_post (codelist : List Str) (stX : CoderState)
    (r : List Str) (st1 : CoderState)
    (h : (Except.ok ((if codelist.length = 0 then [nullCode] else codelist :
            List Str), stX) : Except Unit (List Str × CoderState)) =
        Except.ok (r, st1)) :
    r ≠ [] ∧ st1 = stX := by
  simp only [Except.ok.injEq, Prod.mk.injEq] at h
  obtain ⟨hr, hst⟩ := h
  refine ⟨?_, hst.symm⟩
  subst hr
  split
  · simp
  next hlen => exact fun hnil => hlen (by simp [hnil])

/-- C9 amended: a successful get_loccodes call returns a non-empty code
list and leaves the token sequence, the upper and lower sequences and the
coded-event list unchanged, but it resets the per-story accumulated event
list: to empty for an upper-sequence locator, and to the sentence
identifier followed by the current coded events for a lower-sequence
locator. -/
theorem claim_get_loccodes_frame_amended (nal : Nat) (st : CoderState)
    (loc : Nat × Bool) (r : List Str) (st1 : CoderState)
    (h : get_loccodes nal st loc = Except.ok (r, st1)) :
    r ≠ [] ∧ st1.upperSeq = st.upperSeq ∧ st1.lowerSeq = st.lowerSeq ∧
    st1.parseList = st.parseList ∧ st1.codedEvents = st.codedEvents ∧
    st1.sentenceID = st.sentenceID ∧
    st1.storyEventList =
      (if loc.2 then [] else [st.sentenceID] :: st.codedEvents.map evToList) := by
  obtain ⟨k, b⟩ := loc
  cases b with
  | true =>
    simp only [get_loccodes, if_true, Bind.bind, Except.bind] at h
    cases hne : st.upperSeq.get? k with
    | none =>
      simp only [hne] at h
      exact Except.noConfusion h
    | some neitem =>
      simp only [hne] at h
      by_cases hnec : strIn necTag neitem = true
      all_goals
        first
          | rw [if_pos hnec] at h
          | rw [if_neg hnec] at h
      all_goals
        split at h
      all_goals
        try exact Except.noConfusion h
      all_goals
        obtain ⟨hr, hst⟩ := loccodes_post _ _ _ _ h
      all_goals
        subst hst
      all_goals
        exact ⟨hr, rfl, rfl, rfl, rfl, rfl, rfl⟩
  | false =>
    simp only [get_loccodes, Bool.false_eq_true, if_false, Bind.bind,
      Except.bind] at h
    cases hne : st.lowerSeq.get? k with
    | none =>
      simp only [hne] at h
      exact Except.noConfusion h
    | some neitem =>
      simp only [hne] at h
      by_cases hnec : strIn necTag neitem = true
      all_goals
        first
          | rw [if_pos hnec] at h
          | rw [if_neg hnec] at h
      all_goals
        split at h
      all_goals
        try exact Except.noConfusion h
      all_goals
        obtain ⟨hr, hst⟩ := loccodes_post _ _ _ _ h
      all_goals
        subst hst
      all_goals
        exact ⟨hr, rfl, rfl, rfl, rfl, rfl, rfl⟩

/-- Witness for claim_get_loccodes_frame_amended at a concrete input. -/
theorem claim_get_loccodes_frame_amended_witness :
    (["ABC".toList] : List Str) ≠ [] ∧
    (⟨["(NE<2>ABC".toList], [], [], [], [], "SID".toList⟩ :
        CoderState).upperSeq = ["(NE<2>ABC".toList] ∧
    (⟨["(NE<2>ABC".toList], [], [], [], [], "SID".toList⟩ :
        CoderState).lowerSeq = [] ∧
    (⟨["(NE<2>ABC".toList], [], [], [], [], "SID".toList⟩ :
        CoderState).parseList = [] ∧
    (⟨["(NE<2>ABC".toList], [], [], [], [], "SID".toList⟩ :
        CoderState).codedEvents = [] ∧
    (⟨["(NE<2>ABC".toList], [], [], [], [], "SID".toList⟩ :
        CoderState).sentenceID = "SID".toList ∧
    (⟨["(NE<2>ABC".toList], [], [], [], [], "SID".toList⟩ :
        CoderState).storyEventList =
      (if ((0, true) : Nat × Bool).2 then []
       else ["SID".toList] :: List.map evToList []) := by
  have h := claim_get_loccodes_frame_amended 0
    ⟨["(NE<2>ABC".toList], [], [], [], [["XYZ".toList]], "SID".toList⟩
    (0, true) ["ABC".toList]
    ⟨["(NE<2>ABC".toList], [], [], [], [], "SID".toList⟩ (by rfl)
  exact h

/-! ## check_discards: petrarch.py lines 2415-2452 -/

/-- Python str.upper over ASCII text. -/
def pyUpper (s : Str) : Str :=
  s.map Char.toUpper

/-- The boundary characters accepted after a discard phrase carrying the
trailing underscore marker. -/
def boundaryChars : Str := " .!?".toList

/-- One loop of check_discards over the discard list: the first loop
processes only story-level targets (plus true), the second only the rest,
returning the classification indic with the matched target.  Indexing one
place past the end of the sentence raises. -/
def check_discards_pass (plus : Bool) (indic : Nat) (sent : Str) :
    List Str → Except Unit (Option (Nat × Str))
  | [] => Except.ok none
  | target :: rest =>
    match target with
    | [] => Except.error ()
    | c0 :: _ =>
      if (c0 = '+') = plus then
        let mtarg0 := if plus then target.drop 1 else target
        let lastIsUnd := target.getLast? = some '_'
        let mtarg := if lastIsUnd then mtarg0.dropLast else mtarg0
        match pyFindSub mtarg sent with
        | some loc =>
          if lastIsUnd then
            match sent.get? (loc + mtarg.length) with
            | none => Except.error ()
            | some c =>
              if c ∈ boundaryChars then Except.ok (some (indic, target))
              else check_discards_pass plus indic sent rest
          else Except.ok (some (indic, target))
        | none => check_discards_pass plus indic sent rest
      else check_discards_pass plus indic sent rest

/-- petrarch.py check_discards: classify the sentence text against the
discard list, story-level (plus-prefixed) phrases first. -/
def check_discards (discardList : List Str) (sentenceText : Str) :
    Except Unit (Nat × Str) := do
  let sent := pyUpper sentenceText
  let r1 ← check_discards_pass true 2 sent discardList
  match r1 with
  | some r => Except.ok r
  | none => do
    let r2 ← check_discards_pass false 1 sent discardList
    match r2 with
    | some r => Except.ok r
    | none => Except.ok (0, [])

/-- C10 (code evaluation): a discard phrase with the trailing underscore
boundary marker that matches flush at the end of the sentence text makes
check_discards index one place past the end of the string, which raises,
while the same phrase followed by a boundary character is classified
normally. -/
theorem claim_check_discards_end_crash :
    check_discards ["WORLD_".toList] ("HELLO WORLD".toList) =
      Except.error () ∧
    check_discards ["WORLD_".toList] ("HELLO WORLD!".toList) =
      Except.ok (1, "WORLD_".toList) := by
  constructor
  · rfl
  · rfl

/-! ## Date handling: PETRreader.py dstr_to_ordate and
petrarch.py get_actor_code -/

/-- Python int() on a slice expected to hold digits; none models
ValueError. -/
def toNatDigits (s : Str) : Option Nat :=
  if s = [] then none
  else if s.all Char.isDigit then
    some (s.foldl (fun acc c => 10 * acc + (c.toNat - 48)) 0)
  else none

/-- The day limit for February in dstr_to_ordate, following the nested
century and leap checks of the source. -/
def febLimit (year : Nat) : Nat :=
  if year % 400 = 0 then 29
  else if year % 100 = 0 then 28
  else if year % 4 = 0 then 29
  else 28

/-- PETRreader.py dstr_to_ordate: ordinal (ANSI) date from a YYYYMMDD or
YYMMDD string, with two-digit years up to 30 read as 20YY and others as
19YY; none models DateError. -/
def dstr_to_ordate (datestring : Str) : Option Int := do
  let ymd ←
    if datestring.length > 7 then do
      let y ← toNatDigits (datestring.take 4)
      let m ← toNatDigits ((datestring.drop 4).take 2)
      let d ← toNatDigits ((datestring.drop 6).take 2)
      pure (y, m, d)
    else do
      let y0 ← toNatDigits (datestring.take 2)
      let y := if y0 ≤ 30 then y0 + 2000 else y0 + 1900
      let m ← toNatDigits ((datestring.drop 2).take 2)
      let d ← toNatDigits ((datestring.drop 4).take 2)
      pure (y, m, d)
  let year := ymd.1
  let month := ymd.2.1
  let day := ymd.2.2
  if day = 0 then none
  else
    let dayOk :=
      if month = 2 then day ≤ febLimit year
      else if month = 4 ∨ month = 6 ∨ month = 9 ∨ month = 11 then day ≤ 30
      else day ≤ 31
    if dayOk then
      let adj := if month < 3 then 1 else 0
      let yr := year + 4800 - adj
      let mo := month + 12 * adj - 3
      let julian := day + (153 * mo + 2) / 5 + 365 * yr + yr / 4 - yr / 100
        + yr / 400
      some ((julian : Int) - 32045 - 2305813)
    else none

/-- One stored code alternative of an actor, as built by
read_actor_dictionary: an unconditional code, a before-date or after-date
bound, or a closed date interval. -/
inductive CodeItem where
  | plain (code : Str)
  | before (bound : Int) (code : Str)
  | after (bound : Int) (code : Str)
  | between (lo hi : Int) (code : Str)
deriving DecidableEq

/-- Lines 1747-1759 of get_actor_code: first date-restricted entry whose
condition holds wins. -/
def restrictionScan (d : Int) : List CodeItem → Option Str
  | [] => none
  | item :: rest =>
    match item with
    | CodeItem.plain _ => restrictionScan d rest
    | CodeItem.before b c => if d ≤ b then some c else restrictionScan d rest
    | CodeItem.after b c => if d ≥ b then some c else restrictionScan d rest
    | CodeItem.between lo hi c =>
      if lo ≤ d ∧ d ≤ hi then some c else restrictionScan d rest

/-- Lines 1761-1764 of get_actor_code: the fallback loop over unrestricted
entries, the last one standing. -/
def plainScan (init : Option Str) : List CodeItem → Option Str
  | [] => init
  | CodeItem.plain c :: rest => plainScan (some c) rest
  | _ :: rest => plainScan init rest

/-- Python truthiness of the thecode variable: None and the empty string
are falsy. -/
def falsyCode (o : Option Str) : Bool :=
  match o with
  | none => true
  | some s => s.isEmpty

/-- petrarch.py get_actor_code over a resolved code list (WriteActorRoot
off): resolve date restrictions against the sentence ordinal date, fall
back to an unconditional code, and to the null code when nothing fits. -/
def get_actor_code (codelist : List CodeItem) (d : Int) : Str :=
  let thecode : Option Str :=
    match codelist with
    | [CodeItem.plain c] => some c
    | _ => none
  let thecode :=
    match restrictionScan d codelist with
    | some c => some c
    | none => thecode
  let thecode :=
    if falsyCode thecode then plainScan thecode codelist else thecode
  match thecode with
  | some c => if c.isEmpty then nullCode else c
  | none => nullCode

/-- C4: an actor entry with a before-date variant bounded by 1999-01-01
and an unconditional default resolves to the restricted code on 1998-12-31
and to the default on 1999-06-01; an interval variant is selected exactly
when the sentence ordinal date lies within its closed bounds, both
endpoints included, and otherwise falls back to the default. -/
theorem claim_date_restriction (X Y Z : Str) (b d1 d2 lo hi d : Int)
    (hX : X.isEmpty = false) (hY : Y.isEmpty = false)
    (hZ : Z.isEmpty = false)
    (hb : dstr_to_ordate ("19990101".toList) = some b)
    (hd1 : dstr_to_ordate ("19981231".toList) = some d1)
    (hd2 : dstr_to_ordate ("19990601".toList) = some d2) :
    get_actor_code [CodeItem.plain Y, CodeItem.before b X] d1 = X ∧
    get_actor_code [CodeItem.plain Y, CodeItem.before b X] d2 = Y ∧
    get_actor_code [CodeItem.plain Y, CodeItem.between lo hi Z] d =
      (if lo ≤ d ∧ d ≤ hi then Z else Y) := by
  have cb : dstr_to_ordate ("19990101".toList) = some 145367 := by decide
  have cd1 : dstr_to_ordate ("19981231".toList) = some 145366 := by decide
  have cd2 : dstr_to_ordate ("19990601".toList) = some 145518 := by decide
  rw [cb] at hb
  rw [cd1] at hd1
  rw [cd2] at hd2
  obtain rfl : b = 145367 := (Option.some.injEq _ _ ▸ hb).symm
  obtain rfl : d1 = 145366 := (Option.some.injEq _ _ ▸ hd1).symm
  obtain rfl : d2 = 145518 := (Option.some.injEq _ _ ▸ hd2).symm
  refine ⟨?_, ?_, ?_⟩
  · simp [get_actor_code, restrictionScan, plainScan, falsyCode, hX]
  · simp [get_actor_code, restrictionScan, plainScan, falsyCode, hY]
  · by_cases hcond : lo ≤ d ∧ d ≤ hi
    · simp [get_actor_code, restrictionScan, plainScan, falsyCode, hZ, hcond]
    · simp [get_actor_code, restrictionScan, plainScan, falsyCode, hY, hcond]

/-- Witness for claim_date_restriction at a concrete input. -/
theorem claim_date_restriction_witness :
    get_actor_code
        [CodeItem.plain ("YYY".toList), CodeItem.before 145367 ("XXX".toList)]
        145366 = "XXX".toList ∧
    get_actor_code
        [CodeItem.plain ("YYY".toList), CodeItem.before 145367 ("XXX".toList)]
        145518 = "YYY".toList ∧
    get_actor_code
        [CodeItem.plain ("YYY".toList), CodeItem.between 5 7 ("ZZZ".toList)]
        6 = (if (5 : Int) ≤ 6 ∧ (6 : Int) ≤ 7 then "ZZZ".toList
             else "YYY".toList) :=
  claim_date_restriction ("XXX".toList) ("YYY".toList) ("ZZZ".toList)
    145367 145366 145518 5 7 6 (by decide) (by decide) (by decide)
    (by decide) (by decide) (by decide)

/-! ## Entity code composition: petrarch.py check_NEphrase lines 1896-1931 -/

/-- Duplicate check of check_NEphrase: whether the agent code block agc is
already present in the code under construction as a substring aligned on
3-character steps. -/
def dupAlignedGo (agc actorcode : Str) : Nat → Nat → Bool
  | 0, _ => false
  | fuel + 1, ka =>
    if ka + agc.length ≤ actorcode.length then
      if (actorcode.drop ka).take agc.length = agc then true
      else dupAlignedGo agc actorcode fuel (ka + 3)
    else false

/-- Entry point of the duplicate check; the fuel covers every aligned
position. -/
def dupAligned (agc actorcode : Str) : Bool :=
  dupAlignedGo agc actorcode (actorcode.length + 1) 0

/-- Agent composition loop of check_NEphrase (lines 1910-1927): each agent
code block attaches at the back (leading tilde) or the front (trailing
tilde) of the code under construction; when a block is found already
present the signal value breaks out of the whole loop, so the remaining
agents are dropped.  An empty agent code raises. -/
def composeAgents (actorcode : Str) : List Str → Except Unit Str
  | [] => Except.ok actorcode
  | [] :: _ => Except.error ()
  | (c :: t) :: rest =>
    let agc := if c = '~' then t else (c :: t).dropLast
    if dupAligned agc actorcode then Except.ok actorcode
    else
      let actorcode1 := if c = '~' then actorcode ++ agc else agc ++ actorcode
      composeAgents actorcode1 rest

/-- check_NEphrase from line 1896 (WriteActorRoot off): given the actor
code found (possibly empty) and the matched agent codes, produce the final
entity code; none is the no-actor, no-agent return. -/
def check_NEphrase_compose (actorcode : Str) (agentlist : List Str) :
    Except Unit (Option Str) :=
  if agentlist.length = 0 then
    if actorcode.length = 0 then Except.ok none
    else Except.ok (some actorcode)
  else
    let actorcode1 := if actorcode.length = 0 then nullCode else actorcode
    (composeAgents actorcode1 agentlist).map some

/-- C3 (code evaluation): actor code USA with matched agents carrying
codes MIL, MIL and GOV.  The second MIL block is a duplicate; finding it
breaks the composition loop, so the distinct GOV block is dropped as well,
where the claim (and the check_NEphrase docstring, which promises that all
agents with distinct codes are used) requires USAMILGOV. -/
theorem claim_agent_dup_break_eval :
    check_NEphrase_compose ("USA".toList)
        ["~MIL".toList, "~MIL".toList, "~GOV".toList] =
      Except.ok (some ("USAMIL".toList)) ∧
    (Except.ok (some ("USAMIL".toList)) : Except Unit (Option Str)) ≠
      Except.ok (some ("USAMILGOV".toList)) := by
  constructor
  · rfl
  · intro h
    simp only [Except.ok.injEq, Option.some.injEq] at h
    exact absurd h (by decide)

/-! ## Verb dictionary pattern loading: PETRreader.py read_verb_dictionary -/

/-- Python s.find(c, start): first index of the character at or after
start, none when absent. -/
def pyFindFrom (c : Char) (s : Str) (start : Nat) : Option Nat :=
  match pyFindSub [c] (s.drop start) with
  | some i => some (start + i)
  | none => none

/-- Python s.lstrip(). -/
def pyLstrip (s : Str) : Str :=
  s.dropWhile Char.isWhitespace

/-- Python s.rstrip(). -/
def pyRstrip (s : Str) : Str :=
  (s.reverse.dropWhile Char.isWhitespace).reverse

/-- Python s.strip(). -/
def pyStrip (s : Str) : Str :=
  pyRstrip (pyLstrip s)

/-- Line 716 of read_verb_dictionary: resolve the ambiguous
underscore-blank construction to a blank. -/
def replaceUnderscoreBlank : Str → Str
  | [] => []
  | '_' :: ' ' :: rest => ' ' :: replaceUnderscoreBlank rest
  | c :: rest => c :: replaceUnderscoreBlank rest

/-- The splitting loop of make_phrase_list (lines 570-591): break the
pattern phrase on blanks and underscores into alternating words and
connectors; start advances past a separator each round, so the fuel of
one more than the length covers the loop. -/
def mpl_split (thepat : Str) : Nat → Nat → List Str
  | 0, _ => []
  | fuel + 1, start =>
    if start < thepat.length then
      let maxlen := thepat.length + 1
      let spfind := (pyFindFrom ' ' thepat start).getD maxlen
      let unfind := (pyFindFrom '_' thepat start).getD maxlen
      if unfind < spfind then
        ((thepat.drop start).take (unfind - start)) :: ['_'] ::
          mpl_split thepat fuel (unfind + 1)
      else
        ((thepat.drop start).take (spfind - start)) :: [' '] ::
          mpl_split thepat fuel (spfind + 1)
    else []

/-- The synset reference check of make_phrase_list (lines 592-601): the
word slots at even positions are tested; a nonempty word opening with an
ampersand must be a defined dictionary key. -/
def mpl_check (defined : Str → Bool) : List Str → Bool
  | [] => true
  | [w] =>
    (match w with
     | '&' :: _ => defined w
     | _ => true)
  | w :: _ :: rest =>
    (match w with
     | '&' :: _ => defined w
     | _ => true) && mpl_check defined rest

/-- read_verb_dictionary.make_phrase_list: the pattern phrase as a list of
alternating words and connectors; an undefined synset reference raises
(Except.error), which the caller turns into skipping the pattern line. -/
def make_phrase_list (defined : Str → Bool) (thepat : Str) :
    Except Unit (List Str) :=
  if thepat.length = 0 then Except.ok []
  else
    let phlist := mpl_split thepat (thepat.length + 1) 0
    if mpl_check defined phlist then Except.ok phlist else Except.error ()

/-- The pattern branch of read_verb_dictionary (lines 694-700 and 710-732)
for one dash line: split off the bracketed event code, build the upper
pattern (reversed) and the lower pattern (connector first, final blank
dropped); none when the line is a skipped legacy brace line or when
make_phrase_list raises on an undefined synset reference. -/
def processPatternLine (defined : Str → Bool) (line : Str) :
    Option (List Str × List Str × Str) :=
  let vc : Str × Str :=
    if strIn ['['] line then
      let part := pyPartition '[' line
      (pyStrip part.1 ++ [' '],
       match pyFindSub [']'] part.2 with
       | some i => part.2.take i
       | none => part.2.dropLast)
    else (pyStrip line ++ [' '], [])
  let verb := vc.1
  let code := vc.2
  if strIn ['{'] verb then none
  else
    let verb1 := replaceUnderscoreBlank verb
    let targ := pyPartition '*' (verb1.drop 1)
    match make_phrase_list defined (pyLstrip targ.1) with
    | Except.error _ => none
    | Except.ok hp =>
      let highpat := hp.reverse
      let lowphrase := pyRstrip targ.2
      if lowphrase.length = 0 then some (highpat, [], code)
      else
        match make_phrase_list defined (lowphrase.drop 1) with
        | Except.error _ => none
        | Except.ok lp => some (highpat, targ.2.take 1 :: lp.dropLast, code)

/-- The pattern lines of one verb block processed in file order, each
successful line appending its triple to the entry under construction. -/
def loadPatternLines (defined : Str → Bool) (lines : List Str)
    (entry : List (List Str × List Str × Str)) :
    List (List Str × List Str × Str) :=
  match lines with
  | [] => entry
  | line :: rest =>
    match processPatternLine defined line with
    | none => loadPatternLines defined rest entry
    | some pat => loadPatternLines defined rest (entry ++ [pat])

theorem loadPatternLines_eq (defined : Str → Bool) (lines : List Str)
    (entry : List (List Str × List Str × Str)) :
    loadPatternLines defined lines entry =
      entry ++ lines.filterMap (processPatternLine defined) := by
  induction lines generalizing entry with
  | nil => simp [loadPatternLines]
  | cons line rest ih =>
    simp only [loadPatternLines, List.filterMap_cons]
    cases h : processPatternLine defined line with
    | none => simp [h, ih]
    | some pat => simp [h, ih]

/-- C8: a pattern line on which make_phrase_list raises (an undefined
synset reference) contributes nothing, while loading continues and the
entry ends up exactly as if the line were absent; every other pattern
line of the block still contributes its triple in order. -/
theorem claim_undefined_synset_skip (defined : Str → Bool)
    (pre post : List Str) (bad : Str)
    (entry : List (List Str × List Str × Str))
    (hbad : processPatternLine defined bad = none) :
    loadPatternLines defined (pre ++ bad :: post) entry =
      loadPatternLines defined (pre ++ post) entry ∧
    loadPatternLines defined (pre ++ post) entry =
      entry ++ (pre ++ post).filterMap (processPatternLine defined) := by
  constructor
  · rw [loadPatternLines_eq, loadPatternLines_eq]
    simp [List.filterMap_append, List.filterMap_cons, hbad]
  · exact loadPatternLines_eq defined (pre ++ post) entry

/-- Witness for claim_undefined_synset_skip: a pattern line referencing
the undefined synset FOO is skipped while the neighbouring pattern line
still loads. -/
theorem claim_undefined_synset_skip_witness :
    loadPatternLines (fun _ => false)
        (["- ATTACKED * [111]".toList] ++
          "-  &FOO ATTACKED * [123]".toList :: []) [] =
      loadPatternLines (fun _ => false)
        (["- ATTACKED * [111]".toList] ++ []) [] ∧
    loadPatternLines (fun _ => false)
        (["- ATTACKED * [111]".toList] ++ []) [] =
      [] ++ (["- ATTACKED * [111]".toList] ++ []).filterMap
        (processPatternLine (fun _ => false)) :=
  claim_undefined_synset_skip (fun _ => false)
    ["- ATTACKED * [111]".toList] [] ("-  &FOO ATTACKED * [123]".toList)
    [] (by decide)

/-! ## Actor patterns: PETRreader.py read_actor_dictionary lines 1046-1065
and petrarch.py actor_phrase_match with the search loop of check_NEphrase -/

/-- One stored actor pattern list [codeindex, connector, (word, connector),
...] keyed on its first word (which is not stored): the code table index,
the connector following the key word, and the remaining word-connector
pairs (including a terminator pair when the phrase ends in an
underscore). -/
structure ActorPattern where
  codeindex : Nat
  conn : Char
  rest : List (Str × Char)
deriving DecidableEq

/-- Python len() of the stored phrase list. -/
def pyLen (p : ActorPattern) : Nat :=
  2 + p.rest.length

/-- The comparison realized by sort(key=len, reverse=True): earlier of two
elements when at least as long. -/
def lenGE (a b : ActorPattern) : Prop :=
  pyLen b ≤ pyLen a

instance : DecidableRel lenGE := fun _ _ => Nat.decLe _ _

instance : IsTotal ActorPattern lenGE :=
  ⟨fun a b => (Nat.le_total (pyLen b) (pyLen a)).elim Or.inl Or.inr⟩

instance : IsTrans ActorPattern lenGE :=
  ⟨fun _ _ _ hab hbc => Nat.le_trans hbc hab⟩

/-- The post-processing step of read_actor_dictionary (lines 1063-1065):
each per-keyword pattern list is sorted by descending list length;
Python sort is stable, as is insertion sort. -/
def sortPatterns (l : List ActorPattern) : List ActorPattern :=
  List.insertionSort lenGE l

/-- The scanning loop of actor_phrase_match (lines 1801-1823), walking the
pattern words against the fragment words: j is the pattern position
(kpatword - 2), kfrag the fragment position, connector the connector
behind the last matched word.  The fragment position grows every round,
so a fuel of one more than the fragment length covers the loop. -/
def apm_go (rest : List (Str × Char)) (frag : List Str) :
    Nat → Char → Nat → Nat → Bool
  | 0, _, _, _ => false
  | fuel + 1, connector, kfrag, j =>
    if j < rest.length then
      let pair := rest.getD j ([], ' ')
      if frag.getD kfrag [] = pair.1 then
        if j + 2 ≥ rest.length then true
        else if kfrag + 1 ≥ frag.length then false
        else apm_go rest frag fuel pair.2 (kfrag + 1) (j + 1)
      else if connector = '_' then false
      else if kfrag + 1 ≥ frag.length then false
      else apm_go rest frag fuel connector (kfrag + 1) j
    else true

/-- petrarch.py actor_phrase_match: does the stored pattern occur in the
fragment starting at its key word (already known to match).  A pattern of
bare length two, or of length three whose stored word is the empty
terminator, matches on the key word alone. -/
def actor_phrase_match (patphrase : ActorPattern) (phrasefrag : List Str) :
    Bool :=
  if patphrase.rest.length = 0 then true
  else if patphrase.rest.length = 1 ∧ (patphrase.rest.getD 0 ([], ' ')).1 = []
    then true
  else if 1 ≥ phrasefrag.length then false
  else apm_go patphrase.rest phrasefrag (phrasefrag.length + 1)
    patphrase.conn 1 0

/-- The actor search loop of check_NEphrase (lines 1864-1871): the
patterns under one keyword are tried in list order and the first match
wins. -/
def findActorPattern (patlist : List ActorPattern) (phrasefrag : List Str) :
    Option ActorPattern :=
  patlist.find? (fun p => actor_phrase_match p phrasefrag)

theorem find_sorted_ge {l : List ActorPattern} (hs : l.Sorted lenGE)
    {Q : ActorPattern} (hQ : Q ∈ l) {p : ActorPattern → Bool}
    (hpQ : p Q = true) :
    ∃ R, l.find? p = some R ∧ pyLen Q ≤ pyLen R := by
  induction l with
  | nil => cases hQ
  | cons x t ih =>
    by_cases hx : p x = true
    · refine ⟨x, by simp [List.find?_cons, hx], ?_⟩
      rcases List.mem_cons.1 hQ with rfl | hQt
      · exact Nat.le_refl _
      · exact List.rel_of_sorted_cons hs _ hQt
    · have hQt : Q ∈ t := by
        rcases List.mem_cons.1 hQ with rfl | hQt
        · exact absurd hpQ hx
        · exact hQt
      obtain ⟨R, hR, hle⟩ := ih (List.sorted_cons.1 hs).2 hQt
      refine ⟨R, ?_, hle⟩
      rw [List.find?_cons_of_neg _ (by simpa using hx)]
      exact hR

/-- C5: for two actor patterns under the same first-word key whose stored
word sequences make one a proper prefix of the other, the sorting step of
read_actor_dictionary places the longer pattern strictly before the
shorter, and the first-match search loop of check_NEphrase therefore
returns a pattern at least as long as the longer one whenever the longer
one matches; the shorter pattern never wins such a phrase. -/
theorem claim_longest_match_priority (L : List ActorPattern)
    (P Q : ActorPattern) (frag : List Str) (hP : P ∈ L) (hQ : Q ∈ L)
    (hpre : (P.rest.map Prod.fst).isPrefixOf (Q.rest.map Prod.fst) = true)
    (hneq : P.rest.map Prod.fst ≠ Q.rest.map Prod.fst) :
    List.indexOf Q (sortPatterns L) < List.indexOf P (sortPatterns L) ∧
    (actor_phrase_match Q frag = true →
      ∃ R, findActorPattern (sortPatterns L) frag = some R ∧
        pyLen Q ≤ pyLen R ∧ R ≠ P) := by
  have hlen : P.rest.length < Q.rest.length := by
    have hpre2 := List.isPrefixOf_iff_prefix.1 hpre
    have hle : (P.rest.map Prod.fst).length ≤ (Q.rest.map Prod.fst).length :=
      hpre2.length_le
    rcases Nat.lt_or_ge (P.rest.map Prod.fst).length
        (Q.rest.map Prod.fst).length with hlt | hge
    · simpa using hlt
    · exact absurd (hpre2.eq_of_length (Nat.le_antisymm hle hge)) hneq
  have hlenPQ : pyLen P < pyLen Q := by
    simpa [pyLen] using hlen
  have hPQ : P ≠ Q := by
    intro h
    rw [h] at hlenPQ
    exact Nat.lt_irrefl _ hlenPQ
  have hs : (sortPatterns L).Sorted lenGE :=
    List.sorted_insertionSort lenGE L
  have hP1 : P ∈ sortPatterns L := by
    simpa [sortPatterns] using hP
  have hQ1 : Q ∈ sortPatterns L := by
    simpa [sortPatterns] using hQ
  constructor
  · rcases Nat.lt_or_ge (List.indexOf Q (sortPatterns L))
        (List.indexOf P (sortPatterns L)) with hlt | hge
    · exact hlt
    · exfalso
      rcases Nat.eq_or_lt_of_le hge with heq | hlt2
      · have h1 : (sortPatterns L).get
            ⟨List.indexOf P (sortPatterns L),
              List.indexOf_lt_length.2 hP1⟩ = P := List.indexOf_get _
        have h2 : (sortPatterns L).get
            ⟨List.indexOf Q (sortPatterns L),
              List.indexOf_lt_length.2 hQ1⟩ = Q := List.indexOf_get _
        apply hPQ
        rw [← h1, ← h2]
        congr 1
        exact Fin.ext heq
      · have hrel := hs.rel_get_of_lt
          (a := ⟨List.indexOf P (sortPatterns L),
            List.indexOf_lt_length.2 hP1⟩)
          (b := ⟨List.indexOf Q (sortPatterns L),
            List.indexOf_lt_length.2 hQ1⟩) hlt2
        rw [List.indexOf_get, List.indexOf_get] at hrel
        exact Nat.lt_irrefl _ (Nat.lt_of_lt_of_le hlenPQ hrel)
  · intro hmatch
    obtain ⟨R, hR, hle⟩ :=
      @find_sorted_ge (sortPatterns L) hs Q hQ1
        (fun q => actor_phrase_match q frag) hmatch
    refine ⟨R, hR, hle, ?_⟩
    intro h
    rw [h] at hle
    exact Nat.lt_irrefl _ (Nat.lt_of_lt_of_le hlenPQ hle)

/-- Witness for claim_longest_match_priority: the one-word pattern against
the two-word pattern sharing its key word. -/
theorem claim_longest_match_priority_witness :
    List.indexOf (⟨1, ' ', [("DEF".toList, ' ')]⟩ : ActorPattern)
        (sortPatterns [⟨0, ' ', []⟩, ⟨1, ' ', [("DEF".toList, ' ')]⟩]) <
      List.indexOf (⟨0, ' ', []⟩ : ActorPattern)
        (sortPatterns [⟨0, ' ', []⟩, ⟨1, ' ', [("DEF".toList, ' ')]⟩]) ∧
    (actor_phrase_match ⟨1, ' ', [("DEF".toList, ' ')]⟩
        ["KEY".toList, "DEF".toList] = true →
      ∃ R, findActorPattern
          (sortPatterns [⟨0, ' ', []⟩, ⟨1, ' ', [("DEF".toList, ' ')]⟩])
          ["KEY".toList, "DEF".toList] = some R ∧
        pyLen (⟨1, ' ', [("DEF".toList, ' ')]⟩ : ActorPattern) ≤ pyLen R ∧
        R ≠ ⟨0, ' ', []⟩) :=
  claim_longest_match_priority
    [⟨0, ' ', []⟩, ⟨1, ' ', [("DEF".toList, ' ')]⟩]
    ⟨0, ' ', []⟩ ⟨1, ' ', [("DEF".toList, ' ')]⟩
    ["KEY".toList, "DEF".toList]
    (by decide) (by decide) (by decide) (by decide)

/-! ## Token sequence balance: petrarch.py check_balance (213-228), the
close-marker conversion of read_TreeBank (998-1032) and check_commas
(1934-2087)

ParseList items dispatch on their first character: an open marker
beginning with the open paren and carrying a label, a close marker
beginning with a tilde, a bare close paren (left by the conversion loop
when its stack runs dry), or a plain word. -/

inductive Tok where
  | topen (lbl : Str)
  | tclose (lbl : Str)
  | trparen
  | tword (w : Str)
deriving DecidableEq

/-- The number of items whose first character is the open paren. -/
def nopen (l : List Tok) : Nat :=
  l.countP (fun t => match t with | Tok.topen _ => true | _ => false)

/-- The number of items whose first character is a tilde. -/
def nclose (l : List Tok) : Nat :=
  l.countP (fun t => match t with | Tok.tclose _ => true | _ => false)

/-- petrarch.py check_balance: the open and close marker counts agree
(false models raising UnbalancedTree). -/
def check_balance (l : List Tok) : Bool :=
  nopen l == nclose l

/-- Structural well-formedness of the marker sequence: scanning with an
explicit stack of open labels, every close marker matches the innermost
open one, and the stack empties at the end.  This is the balance
invariant of the specification. -/
def wnChk (stk : List Str) : List Tok → Bool
  | [] => stk.isEmpty
  | Tok.topen l :: rest => wnChk (l :: stk) rest
  | Tok.tclose l :: rest =>
    match stk with
    | [] => false
    | top :: stk1 => top = l && wnChk stk1 rest
  | _ :: rest => wnChk stk rest

/-- Well-nestedness of a token sequence. -/
def wellNested (l : List Tok) : Bool :=
  wnChk [] l

/-- Lines 1008-1018 of read_TreeBank: convert each bare close paren into
the close marker of the innermost open label by unwinding an explicit
stack; when a close paren finds the stack empty the loop breaks, leaving
the remainder of the sequence untouched. -/
def convertParens : List Tok → List Str → List Tok
  | [], _ => []
  | Tok.topen l :: rest, stack => Tok.topen l :: convertParens rest (l :: stack)
  | Tok.trparen :: rest, stack =>
    match stack with
    | [] => Tok.trparen :: rest
    | op :: stack1 => Tok.tclose op :: convertParens rest stack1
  | t :: rest, stack => t :: convertParens rest stack

/-- No item of the raw sequence already begins with a tilde; true of the
split parse string fed to the conversion loop. -/
def noClose (l : List Tok) : Bool :=
  l.all (fun t => match t with | Tok.tclose _ => false | _ => true)

theorem nopen_cons_open (l : Str) (rest : List Tok) :
    nopen (Tok.topen l :: rest) = nopen rest + 1 := by
  simp [nopen, List.countP_cons]

theorem nopen_cons_other (t : Tok) (rest : List Tok)
    (h : ∀ l, t ≠ Tok.topen l) : nopen (t :: rest) = nopen rest := by
  cases t with
  | topen l => exact absurd rfl (h l)
  | tclose l => simp [nopen, List.countP_cons]
  | trparen => simp [nopen, List.countP_cons]
  | tword w => simp [nopen, List.countP_cons]

theorem nclose_cons_close (l : Str) (rest : List Tok) :
    nclose (Tok.tclose l :: rest) = nclose rest + 1 := by
  simp [nclose, List.countP_cons]

theorem nclose_cons_other (t : Tok) (rest : List Tok)
    (h : ∀ l, t ≠ Tok.tclose l) : nclose (t :: rest) = nclose rest := by
  cases t with
  | topen l => simp [nclose, List.countP_cons]
  | tclose l => exact absurd rfl (h l)
  | trparen => simp [nclose, List.countP_cons]
  | tword w => simp [nclose, List.countP_cons]

theorem nclose_noClose (l : List Tok) (h : noClose l = true) :
    nclose l = 0 := by
  induction l with
  | nil => simp [nclose]
  | cons t rest ih =>
    simp only [noClose, List.all_cons, Bool.and_eq_true] at h
    have hr := ih (by simpa [noClose] using h.2)
    cases t with
    | tclose l => simp at h
    | topen l => simpa [nclose, List.countP_cons] using hr
    | trparen => simpa [nclose, List.countP_cons] using hr
    | tword w => simpa [nclose, List.countP_cons] using hr

theorem wnChk_no_marker (l : List Tok) (hc : noClose l = true)
    (ho : nopen l = 0) : wnChk [] l = true := by
  induction l with
  | nil => simp [wnChk]
  | cons t rest ih =>
    simp only [noClose, List.all_cons, Bool.and_eq_true] at hc
    cases t with
    | topen lb => simp [nopen, List.countP_cons] at ho
    | tclose lb => simp at hc
    | trparen =>
      exact ih (by simpa [noClose] using hc.2)
        (by simpa [nopen, List.countP_cons] using ho)
    | tword w =>
      exact ih (by simpa [noClose] using hc.2)
        (by simpa [nopen, List.countP_cons] using ho)

theorem convert_invariant (ts : List Tok) :
    ∀ stk, noClose ts = true →
      (wnChk stk (convertParens ts stk) = true ∧
        nclose (convertParens ts stk) =
          nopen (convertParens ts stk) + stk.length) ∨
      nclose (convertParens ts stk) <
        nopen (convertParens ts stk) + stk.length := by
  induction ts with
  | nil =>
    intro stk _
    cases stk with
    | nil => left; exact ⟨rfl, rfl⟩
    | cons x s => right; simp [convertParens, nopen, nclose]
  | cons t rest ih =>
    intro stk hnc
    have hnc1 : noClose rest = true := by
      simp only [noClose, List.all_cons, Bool.and_eq_true] at hnc
      simpa [noClose] using hnc.2
    cases t with
    | topen l =>
      have hno : nopen (Tok.topen l :: convertParens rest (l :: stk)) =
          nopen (convertParens rest (l :: stk)) + 1 :=
        nopen_cons_open _ _
      have hncl : nclose (Tok.topen l :: convertParens rest (l :: stk)) =
          nclose (convertParens rest (l :: stk)) :=
        nclose_cons_other _ _ (fun lb h => Tok.noConfusion h)
      rcases ih (l :: stk) hnc1 with ⟨hw, hcnt⟩ | hlt
      · left
        constructor
        · simpa [convertParens, wnChk] using hw
        · simp only [convertParens, hno, hncl]
          simp only [List.length_cons] at hcnt
          omega
      · right
        simp only [convertParens, hno, hncl]
        simp only [List.length_cons] at hlt
        omega
    | tclose l =>
      simp only [noClose, List.all_cons, Bool.and_eq_true] at hnc
      simp at hnc
    | trparen =>
      cases stk with
      | nil =>
        have hncall : noClose (Tok.trparen :: rest) = true := by
          simp only [noClose, List.all_cons]
          simp only [noClose] at hnc1
          simpa using hnc1
        have hc0 : nclose (Tok.trparen :: rest) = 0 := nclose_noClose _ hncall
        have hout : convertParens (Tok.trparen :: rest) ([] : List Str) =
            Tok.trparen :: rest := rfl
        by_cases ho : nopen (Tok.trparen :: rest) = 0
        · left
          refine ⟨?_, ?_⟩
          · rw [hout]
            exact wnChk_no_marker _ hncall ho
          · rw [hout, hc0, ho]
            rfl
        · right
          rw [hout, hc0]
          omega
      | cons op stk1 =>
        have hno : nopen (Tok.tclose op :: convertParens rest stk1) =
            nopen (convertParens rest stk1) :=
          nopen_cons_other _ _ (fun lb h => Tok.noConfusion h)
        have hncl : nclose (Tok.tclose op :: convertParens rest stk1) =
            nclose (convertParens rest stk1) + 1 :=
          nclose_cons_close _ _
        rcases ih stk1 hnc1 with ⟨hw, hcnt⟩ | hlt
        · left
          constructor
          · simp [convertParens, wnChk, hw]
          · simp only [convertParens, hno, hncl, List.length_cons]
            omega
        · right
          simp only [convertParens, hno, hncl, List.length_cons]
          omega
    | tword w =>
      have hno : nopen (Tok.tword w :: convertParens rest stk) =
          nopen (convertParens rest stk) :=
        nopen_cons_other _ _ (fun lb h => Tok.noConfusion h)
      have hncl : nclose (Tok.tword w :: convertParens rest stk) =
          nclose (convertParens rest stk) :=
        nclose_cons_other _ _ (fun lb h => Tok.noConfusion h)
      rcases ih stk hnc1 with ⟨hw, hcnt⟩ | hlt
      · left
        constructor
        · simpa [convertParens, wnChk] using hw
        · simp only [convertParens, hno, hncl]
          omega
      · right
        simp only [convertParens, hno, hncl]
        omega

/-- After the close-marker conversion of read_TreeBank, a sequence that
passes check_balance is well-nested. -/
theorem convert_balanced_wellNested (ts : List Tok)
    (hnc : noClose ts = true)
    (hb : check_balance (convertParens ts []) = true) :
    wellNested (convertParens ts []) = true := by
  rcases convert_invariant ts [] hnc with ⟨hw, _⟩ | hlt
  · exact hw
  · exfalso
    simp only [check_balance, beq_iff_eq] at hb
    simp only [List.length_nil, Nat.add_zero] at hlt
    omega

/-! ## Clause elision: petrarch.py check_commas lines 1934-2087 -/

/-- Python list.index restricted to positions at or after start, none when
absent. -/
def idxTokFrom (pl : List Tok) (t : Tok) (start : Nat) : Option Nat :=
  match (pl.drop start).findIdx? (· = t) with
  | some i => some (start + i)
  | none => none

/-- The comma open marker. -/
def commaTok : Tok := Tok.topen [',']

/-- check_commas.count_word (lines 1948-1963): words between loclow and
lochigh - 1, skipping the entity open marker together with its code slot;
a word counts when its first character is alphabetic. -/
def count_word_go (pl : List Tok) (lochigh : Nat) : Nat → Nat → Nat
  | 0, _ => 0
  | fuel + 1, ka =>
    if ka < lochigh then
      match pl.get? ka with
      | some (Tok.topen l) =>
        if l = "NE".toList then count_word_go pl lochigh fuel (ka + 2)
        else count_word_go pl lochigh fuel (ka + 1)
      | some (Tok.tword w) =>
        (if (w.headD ' ').isAlpha then 1 else 0) +
          count_word_go pl lochigh fuel (ka + 1)
      | _ => count_word_go pl lochigh fuel (ka + 1)
    else 0

/-- check_commas.count_word entry point. -/
def count_word (pl : List Tok) (loclow lochigh : Nat) : Nat :=
  count_word_go pl lochigh (lochigh + 1) loclow

/-- check_commas.find_end (lines 1965-1973): the position before the last
element that is not a close marker. -/
def find_end_go (pl : List Tok) : Nat → Nat → Nat
  | 0, ka => ka - 1
  | fuel + 1, ka =>
    if 2 ≤ ka then
      match pl.get? ka with
      | some (Tok.tclose _) => find_end_go pl fuel (ka - 1)
      | _ => ka - 1
    else ka - 1

/-- check_commas.find_end entry point. -/
def find_end (pl : List Tok) : Nat :=
  find_end_go pl (pl.length + 1) (pl.length - 1)

/-- The backward search for a comma open marker of the terminal passes
(lines 2034-2036 and 2073-2075). -/
def find_comma_back (pl : List Tok) : Nat → Nat → Nat
  | 0, ka => ka
  | fuel + 1, ka =>
    if 2 ≤ ka ∧ ¬(pl.get? ka = some commaTok) then
      find_comma_back pl fuel (ka - 1)
    else ka

/-- check_commas.delete_phrases (lines 1975-1997): walk the range
backward, stacking close-marker labels; an open marker equal to the
stacked label removes the whole span up to the first matching close
marker found after it.  none models the raise from a failed index
search. -/
def delete_phrases_go (loclow : Nat) : Nat → Int → List Str → List Tok →
    Option (List Tok)
  | 0, _, _, pl => some pl
  | fuel + 1, ka, stack, pl =>
    if ka ≥ (loclow : Int) then
      match pl.get? ka.toNat with
      | some (Tok.tclose l) =>
        delete_phrases_go loclow fuel (ka - 1) (l :: stack) pl
      | some (Tok.topen l) =>
        match stack with
        | top :: stack1 =>
          if l = top then
            match idxTokFrom pl (Tok.tclose l) (ka.toNat + 1) with
            | some j =>
              delete_phrases_go loclow fuel (ka - 1) stack1
                (pl.take ka.toNat ++ pl.drop (j + 1))
            | none => none
          else delete_phrases_go loclow fuel (ka - 1) stack pl
        | [] => delete_phrases_go loclow fuel (ka - 1) stack pl
      | _ => delete_phrases_go loclow fuel (ka - 1) stack pl
    else some pl

/-- check_commas.delete_phrases entry point. -/
def delete_phrases (pl : List Tok) (loclow lochigh : Nat) :
    Option (List Tok) :=
  delete_phrases_go loclow (lochigh + 1) ((lochigh : Int) - 1) [] pl

/-- The blind three-token removal of a dangling comma fragment (lines
2070 and 2078). -/
def splice3 (pl : List Tok) (ka : Nat) : List Tok :=
  pl.take ka ++ pl.drop (ka + 3)

/-- The internal comma loop (lines 2050-2061): successive comma pairs;
the resumption index kb is carried over the mutated list exactly as the
source does.  The index grows strictly, so the fuel of the initial
length plus two covers the loop. -/
def check_commas_internal (cmin cmax : Nat) : List Tok → Nat → Nat →
    Option (List Tok)
  | _, _, 0 => none
  | pl, ka, fuel + 1 =>
    match idxTokFrom pl commaTok (ka + 1) with
    | none => some pl
    | some kb =>
      let kount := count_word pl (ka + 2) kb
      if cmin ≤ kount ∧ kount ≤ cmax then
        match delete_phrases pl ka kb with
        | none => none
        | some pl1 => check_commas_internal cmin cmax pl1 kb fuel
      else check_commas_internal cmin cmax pl kb fuel

/-- check_commas before its final balance gate: the three threshold
passes (lines 2013-2061) followed by the dangling comma-fragment
removals (lines 2067-2078); none models a raise. -/
def check_commas_pre (bmin bmax emin emax cmin cmax : Nat)
    (pl0 : List Tok) : Option (List Tok) := do
  let pl1 ←
    if bmax ≠ 0 then
      match idxTokFrom pl0 commaTok 0 with
      | none => none
      | some ic =>
        let kount := count_word pl0 2 ic
        if bmin ≤ kount ∧ kount ≤ bmax then delete_phrases pl0 2 ic
        else some pl0
    else some pl0
  let pl2 ←
    if emax ≠ 0 then
      let kend := find_end pl1
      let ka := find_comma_back pl1 (kend + 1) (kend - 1)
      if pl1.get? ka = some commaTok then
        let kount := count_word pl1 ka pl1.length
        if emin ≤ kount ∧ kount ≤ emax then delete_phrases pl1 (ka + 3) kend
        else some pl1
      else some pl1
    else some pl1
  let pl3 ←
    if cmax ≠ 0 then
      match idxTokFrom pl2 commaTok 0 with
      | none => none
      | some ka0 => check_commas_internal cmin cmax pl2 ka0 (pl2.length + 2)
    else some pl2
  let pl4 ←
    match idxTokFrom pl3 commaTok 0 with
    | none => none
    | some ka =>
      some (if count_word pl3 2 ka = 0 then splice3 pl3 ka else pl3)
  let kend := find_end pl4
  let ka := find_comma_back pl4 (kend + 1) (kend - 1)
  some (if pl4.get? ka = some commaTok ∧ count_word pl4 (ka + 1) kend = 0
        then splice3 pl4 ka else pl4)

/-- petrarch.py check_commas: the early return when no comma marker is
present, the elision passes and cleanup, and the re-verification of the
count balance at line 2084; none models a sentence-skipping raise. -/
def check_commas (bmin bmax emin emax cmin cmax : Nat) (pl0 : List Tok) :
    Option (List Tok) :=
  if ¬ pl0.contains commaTok then some pl0
  else
    match check_commas_pre bmin bmax emin emax cmin cmax pl0 with
    | none => none
    | some pl5 => if check_balance pl5 then some pl5 else none

theorem wnChk_counts (l : List Tok) :
    ∀ stk, wnChk stk l = true → stk.length + nopen l = nclose l := by
  induction l with
  | nil =>
    intro stk h
    simp only [wnChk, List.isEmpty_iff] at h
    simp [h, nopen, nclose]
  | cons t rest ih =>
    intro stk h
    cases t with
    | topen l =>
      have := ih (l :: stk) (by simpa [wnChk] using h)
      simp only [List.length_cons] at this
      rw [nopen_cons_open, nclose_cons_other _ _ (fun lb hh => Tok.noConfusion hh)]
      omega
    | tclose l =>
      cases stk with
      | nil => simp [wnChk] at h
      | cons top stk1 =>
        simp only [wnChk, Bool.and_eq_true] at h
        have := ih stk1 h.2
        rw [nopen_cons_other _ _ (fun lb hh => Tok.noConfusion hh),
          nclose_cons_close]
        simp only [List.length_cons]
        omega
    | trparen =>
      have := ih stk (by simpa [wnChk] using h)
      rw [nopen_cons_other _ _ (fun lb hh => Tok.noConfusion hh),
        nclose_cons_other _ _ (fun lb hh => Tok.noConfusion hh)]
      omega
    | tword w =>
      have := ih stk (by simpa [wnChk] using h)
      rw [nopen_cons_other _ _ (fun lb hh => Tok.noConfusion hh),
        nclose_cons_other _ _ (fun lb hh => Tok.noConfusion hh)]
      omega

theorem wellNested_check_balance (l : List Tok)
    (h : wellNested l = true) : check_balance l = true := by
  have := wnChk_counts l [] h
  simp only [List.length_nil, Nat.zero_add] at this
  simp [check_balance, this]

theorem check_commas_balance (bmin bmax emin emax cmin cmax : Nat)
    (pl out : List Tok) (hwn : wellNested pl = true)
    (h : check_commas bmin bmax emin emax cmin cmax pl = some out) :
    check_balance out = true := by
  unfold check_commas at h
  split at h
  · obtain rfl : pl = out := by
      simpa using h
    exact wellNested_check_balance _ hwn
  · split at h
    · exact Option.noConfusion h
    next pl5 hpre =>
      split at h
      next hb =>
        obtain rfl : pl5 = out := by
          simpa using h
        exact hb
      next hb => exact Option.noConfusion h

/-- C6 amended: after the Tree Normalizer the invariant holds in full --
the close-marker conversion unwinds an explicit stack, and any sequence
passing the check_balance gate is well-nested -- while after Clause
Elision only the open/close count balance is re-verified: a sentence
surviving check_commas is count-balanced (count-unbalanced results are
rejected before the Entity Resolver), but well-formed nesting is not
re-established there. -/
theorem claim_balance_invariant_amended (ts : List Tok)
    (bmin bmax emin emax cmin cmax : Nat) (pl out : List Tok)
    (hnc : noClose ts = true)
    (hb : check_balance (convertParens ts []) = true)
    (hwn : wellNested pl = true)
    (hcc : check_commas bmin bmax emin emax cmin cmax pl = some out) :
    wellNested (convertParens ts []) = true ∧ check_balance out = true :=
  ⟨convert_balanced_wellNested ts hnc hb,
   check_commas_balance bmin bmax emin emax cmin cmax pl out hwn hcc⟩

/-- A well-nested, count-balanced token sequence as the Tree Normalizer
could leave it: an initial comma clause holding two words, and an empty
comma phrase inside a noun phrase near the end. -/
def commaCounterIn : List Tok :=
  [Tok.topen ("ROOT".toList), Tok.topen ("S".toList),
   Tok.topen [','], Tok.tword ("W".toList), Tok.tword ("W2".toList),
   Tok.tclose [','], Tok.topen ("NP".toList), Tok.topen [','],
   Tok.tclose [','], Tok.tclose ("NP".toList), Tok.tword ("PUNCT".toList),
   Tok.tclose ("S".toList), Tok.tclose ("ROOT".toList)]

/-- What check_commas leaves of commaCounterIn with every elision pass
disabled: the two dangling-comma removals each splice out three tokens
blindly, leaving a count-balanced but ill-nested sequence. -/
def commaCounterOut : List Tok :=
  [Tok.topen ("ROOT".toList), Tok.topen ("S".toList), Tok.tclose [','],
   Tok.topen ("NP".toList), Tok.tword ("PUNCT".toList),
   Tok.tclose ("S".toList), Tok.tclose ("ROOT".toList)]

/-- C6 counterexample: a well-nested, balanced sequence on which
check_commas succeeds (so the sentence reaches the Entity Resolver) yet
returns a sequence that passes the count check while violating
well-formed nesting: the balance invariant does not hold after Clause
Elision and the sentence is not rejected. -/
theorem claim_balance_invariant_counterexample :
    wellNested commaCounterIn = true ∧
    check_balance commaCounterIn = true ∧
    check_commas 0 0 0 0 0 0 commaCounterIn = some commaCounterOut ∧
    check_balance commaCounterOut = true ∧
    wellNested commaCounterOut = false := by
  refine ⟨by decide, by decide, by rfl, by decide, by decide⟩

/-- Witness for claim_balance_invariant_amended at a concrete input. -/
theorem claim_balance_invariant_amended_witness :
    wellNested (convertParens
      [Tok.topen ("S".toList), Tok.tword ("W".toList), Tok.trparen] []) =
      true ∧
    check_balance [Tok.topen ("S".toList), Tok.tword ("W".toList),
      Tok.tclose ("S".toList)] = true :=
  claim_balance_invariant_amended
    [Tok.topen ("S".toList), Tok.tword ("W".toList), Tok.trparen]
    0 0 0 0 0 0
    [Tok.topen ("S".toList), Tok.tword ("W".toList),
      Tok.tclose ("S".toList)]
    [Tok.topen ("S".toList), Tok.tword ("W".toList),
      Tok.tclose ("S".toList)]
    (by decide) (by decide) (by decide) (by rfl)

end Petrarch
